import Mathlib

/-!
Verification of the `cooper` C++ actor library against its specification.

The file shallowly embeds the functional core of the library:

* `thread_queue` (task_queue.h): a bounded FIFO queue with an outstanding-task
  counter.  The C++ class guards every operation with one mutex, so each public
  operation is atomic; the embedding models each *completed* operation as a
  pure function on the queue state.  A blocking operation (`put` on a full
  queue, `get` on an empty one) completes only in a state where its wait
  condition holds, so its completion is modelled as a partial function
  (`Option`), `none` standing for "still blocked".
* `work_thread` (work_thread.h / work_thread.cpp): the worker loop, the
  `submit`/`call`/`cast` result plumbing built on `std::packaged_task` and
  `std::future`, and the quit/drain shutdown protocol.
* `func_wrapper` (func_wrapper.h): the move-only type-erased callable wrapper,
  whose `impl_` pointer is modelled by an `Option`.
* `timer` (timer.h / timer.cpp): the scheduling arithmetic of `thread_func`
  (which callback invocations happen for a given `initTime_`/`interval_`
  configuration, and the `to = max(to + interval_, now)` reschedule step).
* `work_threads` (work_thread.h): the round-robin index counter, a wrapping
  `std::atomic<size_t>`, modelled as a natural number reduced mod `2 ^ 64`.

Machine integers: `size_type` is `std::size_t` (64-bit unsigned).  The queue
counters cannot overflow in any reachable state (capacity bounds the size, and
`task_done` guards the decrement), so they are modelled as `Nat`; the
round-robin counter is incremented without bound, so its wrap at `2 ^ 64` is
modelled explicitly.
-/

/-- numeric_limits of std::size_t: the largest 64-bit unsigned value.  Source:
task_queue.h, `MAX_CAPACITY = std::numeric_limits<size_type>::max()`. -/
def MAX_CAPACITY : Nat := 2 ^ 64 - 1

/-- State of `cooper::thread_queue<T>` (task_queue.h): capacity `cap_`,
outstanding-task count `nTasks_`, and the FIFO container `que_` (front of the
queue = head of the list, items pushed at the tail). -/
structure thread_queue (α : Type) where
  cap_ : Nat
  nTasks_ : Nat
  que_ : List α
deriving DecidableEq, Repr

/-- Default constructor `task_queue()` : capacity `MAX_CAPACITY`, no items,
no outstanding tasks. -/
def thread_queue.default_init (α : Type) : thread_queue α :=
  { cap_ := MAX_CAPACITY, nTasks_ := 0, que_ := [] }

/-- Constructor `task_queue(size_t cap)` : the given capacity, empty. -/
def thread_queue.init (α : Type) (cap : Nat) : thread_queue α :=
  { cap_ := cap, nTasks_ := 0, que_ := [] }

/-- `empty()` : whether the container is empty. -/
def thread_queue.empty (s : thread_queue α) : Bool := s.que_.isEmpty

/-- `capacity()` (getter). -/
def thread_queue.capacity (s : thread_queue α) : Nat := s.cap_

/-- `capacity(size_type cap)` (setter): `cap_ = cap;` unconditionally — the
source explicitly allows setting the capacity below the current size. -/
def thread_queue.set_capacity (cap : Nat) (s : thread_queue α) : thread_queue α :=
  { s with cap_ := cap }

/-- `size()` : number of items in the container. -/
def thread_queue.size (s : thread_queue α) : Nat := s.que_.length

/-- `num_tasks()` : the outstanding-task count `nTasks_`. -/
def thread_queue.num_tasks (s : thread_queue α) : Nat := s.nTasks_

/-- Private helper `queue_item(g, val)` : unconditionally emplace `val` at the
tail and increment the task counter (the remaining lines only signal the
"not empty" condition variable, which has no effect on the queue state). -/
def thread_queue.queue_item (val : α) (s : thread_queue α) : thread_queue α :=
  { s with que_ := s.que_ ++ [val], nTasks_ := s.nTasks_ + 1 }

/-- Private helper `deque_item(g, n)` : move the front item out and pop it.
The caller must have checked that the queue is non-empty; `none` models the
violated precondition (the source never reaches it). -/
def thread_queue.deque_item : thread_queue α → Option (α × thread_queue α)
  | { cap_ := _, nTasks_ := _, que_ := [] } => none
  | { cap_ := c, nTasks_ := n, que_ := v :: vs } =>
      some (v, { cap_ := c, nTasks_ := n, que_ := vs })

/-- `put(val)` : wait until `que_.size() < cap_`, then `queue_item`.  A
completed (successful) put therefore runs `queue_item` in a state with room;
`none` models the call still blocked on the "not full" condition. -/
def thread_queue.put (val : α) (s : thread_queue α) : Option (thread_queue α) :=
  if s.que_.length < s.cap_ then some (s.queue_item val) else none

/-- `try_put(val)` : if `n >= cap_` return `false` without touching the state,
else `queue_item` and return `true`.  Never waits. -/
def thread_queue.try_put (val : α) (s : thread_queue α) : Bool × thread_queue α :=
  if s.que_.length ≥ s.cap_ then (false, s) else (true, s.queue_item val)

/-- `try_put_for(val, relTime)` : wait up to `relTime` for room.  Operations
are serialized by the mutex, so the wait resolves against the state the
operation completes in: room available (insert, `true`) or timeout with the
queue still full (`false`, state unchanged). -/
def thread_queue.try_put_for (val : α) (s : thread_queue α) : Bool × thread_queue α :=
  if s.que_.length ≥ s.cap_ then (false, s) else (true, s.queue_item val)

/-- `try_put_until(val, absTime)` : as `try_put_for` with an absolute
deadline; identical completed-state semantics. -/
def thread_queue.try_put_until (val : α) (s : thread_queue α) : Bool × thread_queue α :=
  if s.que_.length ≥ s.cap_ then (false, s) else (true, s.queue_item val)

/-- `get()` : wait until the queue is non-empty, then `deque_item`.  A
completed get therefore always removes the front item; `none` models the call
still blocked on the "not empty" condition. -/
def thread_queue.get (s : thread_queue α) : Option (α × thread_queue α) :=
  s.deque_item

/-- `try_get(val)` : if the queue is empty return `false`, else `deque_item`.
`none` stands for the `false` return (no value, state unchanged). -/
def thread_queue.try_get (s : thread_queue α) : Option (α × thread_queue α) :=
  if s.que_.length = 0 then none else s.deque_item

/-- `try_get_for(val, relTime)` : bounded wait for an item; in the completed
state either an item is available (dequeue it) or the wait timed out with the
queue still empty. -/
def thread_queue.try_get_for (s : thread_queue α) : Option (α × thread_queue α) :=
  if s.que_.length = 0 then none else s.deque_item

/-- `try_get_until(val, absTime)` : as `try_get_for` with an absolute
deadline. -/
def thread_queue.try_get_until (s : thread_queue α) : Option (α × thread_queue α) :=
  if s.que_.length = 0 then none else s.deque_item

/-- `task_done()` : if `nTasks_ == 0` return immediately (a no-op), else
decrement it (the remaining lines only signal the "all tasks done" condition
variable). -/
def thread_queue.task_done (s : thread_queue α) : thread_queue α :=
  if s.nTasks_ = 0 then s else { s with nTasks_ := s.nTasks_ - 1 }

/-- `wait()` : block until `nTasks_ == 0`; never mutates the queue state. -/
def thread_queue.wait_all (s : thread_queue α) : thread_queue α := s

/-- Which insert variant a caller used: `put`, `try_put`, `try_put_for` or
`try_put_until`. -/
inductive PutKind where
  | put | try_put | try_put_for | try_put_until
deriving DecidableEq, Repr

/-- Run one insert variant; `some s` exactly when the call succeeded (inserted
its value), mirroring the `true`/completed returns of the source. -/
def runPut (k : PutKind) (v : α) (s : thread_queue α) : Option (thread_queue α) :=
  match k with
  | .put => s.put v
  | .try_put => let r := s.try_put v; if r.1 then some r.2 else none
  | .try_put_for => let r := s.try_put_for v; if r.1 then some r.2 else none
  | .try_put_until => let r := s.try_put_until v; if r.1 then some r.2 else none

/-- Which retrieve variant a caller used. -/
inductive GetKind where
  | get | try_get | try_get_for | try_get_until
deriving DecidableEq, Repr

/-- Run one retrieve variant; `some (v, s)` exactly when the call succeeded in
removing a value. -/
def runGet (k : GetKind) (s : thread_queue α) : Option (α × thread_queue α) :=
  match k with
  | .get => s.get
  | .try_get => s.try_get
  | .try_get_for => s.try_get_for
  | .try_get_until => s.try_get_until

/-- A sequence of successful inserts, in order: `some` exactly when every
insert in the list succeeded. -/
def putSeq : List (PutKind × α) → thread_queue α → Option (thread_queue α)
  | [], s => some s
  | (k, v) :: ps, s => (runPut k v s).bind (putSeq ps)

/-- A sequence of successful retrieves, in order, collecting the returned
values. -/
def getSeq : List GetKind → thread_queue α → Option (List α × thread_queue α)
  | [], s => some ([], s)
  | k :: ks, s =>
      (runGet k s).bind fun r =>
        (getSeq ks r.2).map fun r' => (r.1 :: r'.1, r'.2)

theorem runPut_eq (k : PutKind) (v : α) (s : thread_queue α) :
    runPut k v s =
      if s.que_.length < s.cap_ then some (s.queue_item v) else none := by
  have hiff : (s.que_.length ≥ s.cap_) = ¬(s.que_.length < s.cap_) := by
    simp [Nat.not_lt]
  rcases k <;>
    simp only [runPut, thread_queue.put, thread_queue.try_put,
      thread_queue.try_put_for, thread_queue.try_put_until, hiff] <;>
    by_cases h : s.que_.length < s.cap_ <;>
    simp [h]

theorem runGet_cons (k : GetKind) (c n : Nat) (v : α) (vs : List α) :
    runGet k { cap_ := c, nTasks_ := n, que_ := v :: vs } =
      some (v, { cap_ := c, nTasks_ := n, que_ := vs }) := by
  rcases k <;>
    simp [runGet, thread_queue.get, thread_queue.try_get, thread_queue.try_get_for,
      thread_queue.try_get_until, thread_queue.deque_item]

theorem putSeq_some (ps : List (PutKind × α)) (s z : thread_queue α)
    (h : putSeq ps s = some z) :
    z = { cap_ := s.cap_, nTasks_ := s.nTasks_ + ps.length,
          que_ := s.que_ ++ ps.map Prod.snd } := by
  induction ps generalizing s with
  | nil =>
      rcases s with ⟨c, n, q⟩
      simp only [putSeq, Option.some_inj] at h
      simp [← h]
  | cons p ps ih =>
      rcases p with ⟨k, v⟩
      simp only [putSeq, runPut_eq] at h
      by_cases h1 : s.que_.length < s.cap_
      · rw [if_pos h1] at h
        simp only [Option.some_bind] at h
        have := ih (s.queue_item v) h
        rcases s with ⟨c, n, q⟩
        simp only [thread_queue.queue_item] at this
        simp [this, List.append_assoc, Nat.add_assoc, Nat.add_comm 1 ps.length]
      · rw [if_neg h1] at h
        simp at h

theorem putSeq_total (ps : List (PutKind × α)) (s : thread_queue α)
    (h : s.que_.length + ps.length ≤ s.cap_) :
    putSeq ps s =
      some { cap_ := s.cap_, nTasks_ := s.nTasks_ + ps.length,
             que_ := s.que_ ++ ps.map Prod.snd } := by
  induction ps generalizing s with
  | nil =>
      rcases s with ⟨c, n, q⟩
      simp [putSeq]
  | cons p ps ih =>
      rcases p with ⟨k, v⟩
      have h1 : s.que_.length < s.cap_ := by
        simp only [List.length_cons] at h; omega
      simp only [putSeq, runPut_eq, if_pos h1, Option.some_bind]
      rw [ih (s.queue_item v)
        (by simp only [thread_queue.queue_item, List.length_append,
              List.length_cons, List.length_nil, List.length_cons] at h ⊢; omega)]
      rcases s with ⟨c, n, q⟩
      simp [thread_queue.queue_item, List.append_assoc,
        Nat.add_assoc, Nat.add_comm 1 ps.length]

theorem getSeq_all (ks : List GetKind) (s : thread_queue α)
    (h : ks.length = s.que_.length) :
    getSeq ks s = some (s.que_, { s with que_ := [] }) := by
  induction ks generalizing s with
  | nil =>
      rcases s with ⟨c, n, q⟩
      have : q = [] := by
        have h0 : q.length = 0 := by simpa using h.symm
        exact List.eq_nil_of_length_eq_zero h0
      subst this
      simp [getSeq]
  | cons k ks ih =>
      rcases s with ⟨c, n, q⟩
      rcases q with _ | ⟨v, vs⟩
      · simp at h
      · have h' : ks.length = vs.length := by simpa using h
        have hrec := ih { cap_ := c, nTasks_ := n, que_ := vs } (by simpa using h')
        simp [getSeq, runGet_cons, hrec]

/-- Claim C1: FIFO.  For every sequence of values `v1 … vn` inserted into a
single `thread_queue` by successful `put`/`try_put`/`try_put_for`/
`try_put_until` calls in a given order (starting from a queue holding no
items), a matching sequence of `n` successful `get`/`try_get` variant calls
returns exactly `v1 … vn` in that same order. -/
theorem thread_queue_fifo (α : Type) (ps : List (PutKind × α)) (ks : List GetKind)
    (s z : thread_queue α) (hempty : s.que_ = [])
    (hput : putSeq ps s = some z) (hlen : ks.length = ps.length) :
    getSeq ks z = some (ps.map Prod.snd, { z with que_ := [] }) := by
  have hz := putSeq_some ps s z hput
  have hq : z.que_ = ps.map Prod.snd := by
    rw [hz]; simp [hempty]
  have hlen' : ks.length = z.que_.length := by
    rw [hq, List.length_map, hlen]
  rw [getSeq_all ks z hlen', hq]

/-- Witness for C1: pushing 1, 2, 3 through three different successful insert
variants and reading them back with three different retrieve variants yields
1, 2, 3 in order. -/
theorem thread_queue_fifo_witness :
    getSeq [GetKind.get, GetKind.try_get, GetKind.try_get_until]
        ({ cap_ := 10, nTasks_ := 3, que_ := [1, 2, 3] } : thread_queue Nat) =
      some ([1, 2, 3], { cap_ := 10, nTasks_ := 3, que_ := [] }) := by
  have h := thread_queue_fifo Nat
    [(PutKind.put, 1), (PutKind.try_put, 2), (PutKind.try_put_for, 3)]
    [GetKind.get, GetKind.try_get, GetKind.try_get_until]
    (thread_queue.init Nat 10) { cap_ := 10, nTasks_ := 3, que_ := [1, 2, 3] }
    (by decide) (by decide) (by decide)
  simpa using h

/-- Claim C4: task accounting.  `num_tasks()` increases by exactly 1 on every
successful put variant, is unchanged by every get variant, and `task_done()`
decrements it by exactly 1 except when it is already 0, in which case the call
is a no-op leaving the whole state unchanged.  The counter (an unsigned
`size_type` kept exact by the zero guard) can never go negative. -/
theorem thread_queue_num_tasks_accounting (α : Type) (v : α) (s : thread_queue α) :
    (∀ z, s.put v = some z → z.num_tasks = s.num_tasks + 1) ∧
    ((s.try_put v).1 = true → (s.try_put v).2.num_tasks = s.num_tasks + 1) ∧
    ((s.try_put_for v).1 = true → (s.try_put_for v).2.num_tasks = s.num_tasks + 1) ∧
    ((s.try_put_until v).1 = true → (s.try_put_until v).2.num_tasks = s.num_tasks + 1) ∧
    (∀ x z, s.get = some (x, z) → z.num_tasks = s.num_tasks) ∧
    (∀ x z, s.try_get = some (x, z) → z.num_tasks = s.num_tasks) ∧
    (∀ x z, s.try_get_for = some (x, z) → z.num_tasks = s.num_tasks) ∧
    (∀ x z, s.try_get_until = some (x, z) → z.num_tasks = s.num_tasks) ∧
    (s.num_tasks ≠ 0 → s.task_done.num_tasks + 1 = s.num_tasks) ∧
    (s.num_tasks = 0 → s.task_done = s) := by
  rcases s with ⟨c, n, q⟩
  refine ⟨?_, ?_, ?_, ?_, ?_, ?_, ?_, ?_, ?_, ?_⟩
  · intro z hz
    simp only [thread_queue.put] at hz
    by_cases h : q.length < c
    · rw [if_pos h] at hz
      simp [← Option.some_inj.mp hz, thread_queue.queue_item, thread_queue.num_tasks]
    · rw [if_neg h] at hz; simp at hz
  · intro h
    simp only [thread_queue.try_put] at h ⊢
    by_cases h1 : q.length ≥ c
    · rw [if_pos h1] at h; simp at h
    · rw [if_neg h1] at h ⊢
      simp [thread_queue.queue_item, thread_queue.num_tasks]
  · intro h
    simp only [thread_queue.try_put_for] at h ⊢
    by_cases h1 : q.length ≥ c
    · rw [if_pos h1] at h; simp at h
    · rw [if_neg h1] at h ⊢
      simp [thread_queue.queue_item, thread_queue.num_tasks]
  · intro h
    simp only [thread_queue.try_put_until] at h ⊢
    by_cases h1 : q.length ≥ c
    · rw [if_pos h1] at h; simp at h
    · rw [if_neg h1] at h ⊢
      simp [thread_queue.queue_item, thread_queue.num_tasks]
  · intro x z hz
    rcases q with _ | ⟨w, ws⟩
    · simp [thread_queue.get, thread_queue.deque_item] at hz
    · simp only [thread_queue.get, thread_queue.deque_item, Option.some_inj,
        Prod.ext_iff] at hz
      simp [← hz.2, thread_queue.num_tasks]
  · intro x z hz
    rcases q with _ | ⟨w, ws⟩
    · simp [thread_queue.try_get, thread_queue.deque_item] at hz
    · simp only [thread_queue.try_get, thread_queue.deque_item] at hz
      simp only [List.length_cons, if_neg (Nat.succ_ne_zero ws.length),
        Option.some_inj, Prod.ext_iff] at hz
      simp [← hz.2, thread_queue.num_tasks]
  · intro x z hz
    rcases q with _ | ⟨w, ws⟩
    · simp [thread_queue.try_get_for, thread_queue.deque_item] at hz
    · simp only [thread_queue.try_get_for, thread_queue.deque_item] at hz
      simp only [List.length_cons, if_neg (Nat.succ_ne_zero ws.length),
        Option.some_inj, Prod.ext_iff] at hz
      simp [← hz.2, thread_queue.num_tasks]
  · intro x z hz
    rcases q with _ | ⟨w, ws⟩
    · simp [thread_queue.try_get_until, thread_queue.deque_item] at hz
    · simp only [thread_queue.try_get_until, thread_queue.deque_item] at hz
      simp only [List.length_cons, if_neg (Nat.succ_ne_zero ws.length),
        Option.some_inj, Prod.ext_iff] at hz
      simp [← hz.2, thread_queue.num_tasks]
  · intro h
    simp only [thread_queue.num_tasks] at h ⊢
    simp only [thread_queue.task_done, if_neg h, thread_queue.num_tasks]
    omega
  · intro h
    simp only [thread_queue.num_tasks] at h
    simp [thread_queue.task_done, h]

/-- Witness for C4: on a fresh queue of capacity 2, a `put` of 5 bumps the
task count from 0 to 1, and `task_done` with zero outstanding tasks leaves the
queue unchanged. -/
theorem thread_queue_num_tasks_accounting_witness :
    ({ cap_ := 2, nTasks_ := 1, que_ := [5] } : thread_queue Nat).num_tasks =
        (thread_queue.init Nat 2).num_tasks + 1 ∧
      (thread_queue.init Nat 2).task_done = thread_queue.init Nat 2 := by
  have h := thread_queue_num_tasks_accounting Nat 5 (thread_queue.init Nat 2)
  exact ⟨h.1 { cap_ := 2, nTasks_ := 1, que_ := [5] } (by decide),
    h.2.2.2.2.2.2.2.2.2 (by decide)⟩

/-- Claim C6: capacity backpressure.  On a queue of capacity `N ≥ 1`, `N`
successful `put`s from empty (all of which do succeed) fill the queue to
`size == N`; a further `try_put` then returns `false` and changes nothing;
after one `get` removes an element, the next `try_put` returns `true` and
appends its value.  In every state `try_put` returns immediately with one of
its two outcomes — it never waits. -/
theorem thread_queue_backpressure (α : Type) (N : Nat) (vs : List α) (v w : α)
    (hN : 1 ≤ N) (hlen : vs.length = N) :
    (∃ s1 x s2,
      putSeq (vs.map fun u => (PutKind.put, u)) (thread_queue.init α N) = some s1 ∧
      s1.size = N ∧
      s1.try_put v = (false, s1) ∧
      s1.get = some (x, s2) ∧
      (s2.try_put w).1 = true ∧
      (s2.try_put w).2.que_ = s2.que_ ++ [w]) ∧
    (∀ s : thread_queue α, ∀ u : α,
      s.try_put u = (false, s) ∨ s.try_put u = (true, s.queue_item u)) := by
  constructor
  · rcases vs with _ | ⟨v0, vrest⟩
    · simp at hlen; omega
    · have htot := putSeq_total ((v0 :: vrest).map fun u => (PutKind.put, u))
        (thread_queue.init α N)
        (by simp only [List.length_cons] at hlen; simp [thread_queue.init]; omega)
      have hmap : ((v0 :: vrest).map fun u => (PutKind.put, u)).map Prod.snd
          = v0 :: vrest := by
        simp
      rw [hmap] at htot
      simp only [thread_queue.init, List.nil_append, List.length_map,
        Nat.zero_add] at htot
      refine ⟨{ cap_ := N, nTasks_ := (v0 :: vrest).length, que_ := v0 :: vrest },
        v0, { cap_ := N, nTasks_ := (v0 :: vrest).length, que_ := vrest },
        htot, ?_, ?_, ?_, ?_, ?_⟩
      · simpa [thread_queue.size] using hlen
      · simp only [thread_queue.try_put]
        rw [if_pos (by simp only [List.length_cons] at hlen; simp; omega)]
      · simp [thread_queue.get, thread_queue.deque_item]
      · simp only [thread_queue.try_put]
        rw [if_neg (by simp only [List.length_cons] at hlen; simp; omega)]
      · simp only [thread_queue.try_put]
        rw [if_neg (by simp only [List.length_cons] at hlen; simp; omega)]
        simp [thread_queue.queue_item]
  · intro s u
    simp only [thread_queue.try_put]
    by_cases h : s.que_.length ≥ s.cap_
    · left; rw [if_pos h]
    · right; rw [if_neg h]

/-- Witness for C6: capacity 2, puts of 1 and 2 fill the queue; `try_put 7`
fails; after `get` returns 1, `try_put 9` succeeds and appends 9. -/
theorem thread_queue_backpressure_witness :
    ∃ s1 x s2,
      putSeq [(PutKind.put, 1), (PutKind.put, 2)] (thread_queue.init Nat 2) = some s1 ∧
      s1.size = 2 ∧
      s1.try_put 7 = (false, s1) ∧
      s1.get = some (x, s2) ∧
      (s2.try_put 9).1 = true ∧
      (s2.try_put 9).2.que_ = s2.que_ ++ [9] :=
  (thread_queue_backpressure Nat 2 [1, 2] 7 9 (by decide) (by decide)).1

/-- One public operation on a `thread_queue`, as listed in task_queue.h:
the four insert variants, the four retrieve variants, `task_done()`, `wait()`,
the `capacity(size_type)` setter, and the const accessors (`empty()`,
`capacity()`, `size()`, `num_tasks()`), which read under the lock and leave
the state unchanged. -/
inductive QOp (α : Type) where
  | put (v : α)
  | try_put (v : α)
  | try_put_for (v : α)
  | try_put_until (v : α)
  | get
  | try_get
  | try_get_for
  | try_get_until
  | task_done
  | wait_all
  | set_capacity (n : Nat)
  | accessor
deriving DecidableEq, Repr

/-- Effect of one completed public operation on the queue state.  A `put`
whose wait condition does not hold has not completed and so has not yet
changed the state; a failed try variant returns leaving the state unchanged,
exactly as in the source. -/
def QOp.apply : QOp α → thread_queue α → thread_queue α
  | .put v, s => (s.put v).getD s
  | .try_put v, s => (s.try_put v).2
  | .try_put_for v, s => (s.try_put_for v).2
  | .try_put_until v, s => (s.try_put_until v).2
  | .get, s => match s.get with | some r => r.2 | none => s
  | .try_get, s => match s.try_get with | some r => r.2 | none => s
  | .try_get_for, s => match s.try_get_for with | some r => r.2 | none => s
  | .try_get_until, s => match s.try_get_until with | some r => r.2 | none => s
  | .task_done, s => s.task_done
  | .wait_all, s => s.wait_all
  | .set_capacity n, s => s.set_capacity n
  | .accessor, s => s

/-- The state reached from `s` after a sequence of public operations. -/
def reach (ops : List (QOp α)) (s : thread_queue α) : thread_queue α :=
  ops.foldl (fun t op => op.apply t) s

/-- Every `set_capacity` in the sequence is issued in a state whose size does
not exceed the new capacity (the sequence never shrinks the capacity below the
current content). -/
def capSafe : List (QOp α) → thread_queue α → Prop
  | [], _ => True
  | op :: ops, s =>
      (match op with
       | QOp.set_capacity n => s.size ≤ n
       | _ => True) ∧ capSafe ops (op.apply s)

theorem deque_item_que (s : thread_queue α) (x : α) (z : thread_queue α)
    (h : s.deque_item = some (x, z)) : z.que_ = s.que_.tail ∧ z.cap_ = s.cap_ := by
  rcases s with ⟨c, n, _ | ⟨v, vs⟩⟩
  · simp [thread_queue.deque_item] at h
  · simp only [thread_queue.deque_item, Option.some_inj, Prod.ext_iff] at h
    simp [← h.2]

theorem QOp.apply_size_le (op : QOp α) (s : thread_queue α)
    (hs : s.size ≤ s.cap_)
    (hcap : match op with | QOp.set_capacity n => s.size ≤ n | _ => True) :
    (op.apply s).size ≤ (op.apply s).cap_ := by
  rcases op with v | v | v | v | _ | _ | _ | _ | _ | _ | n | _
  · simp only [QOp.apply, thread_queue.put]
    by_cases h : s.que_.length < s.cap_
    · rw [if_pos h]
      simp only [Option.getD_some, thread_queue.queue_item, thread_queue.size] at *
      simp only [List.length_append, List.length_cons, List.length_nil]
      omega
    · rw [if_neg h]; exact hs
  · simp only [QOp.apply, thread_queue.try_put]
    by_cases h : s.que_.length ≥ s.cap_
    · rw [if_pos h]; exact hs
    · rw [if_neg h]
      simp only [thread_queue.queue_item, thread_queue.size] at *
      simp only [List.length_append, List.length_cons, List.length_nil]
      omega
  · simp only [QOp.apply, thread_queue.try_put_for]
    by_cases h : s.que_.length ≥ s.cap_
    · rw [if_pos h]; exact hs
    · rw [if_neg h]
      simp only [thread_queue.queue_item, thread_queue.size] at *
      simp only [List.length_append, List.length_cons, List.length_nil]
      omega
  · simp only [QOp.apply, thread_queue.try_put_until]
    by_cases h : s.que_.length ≥ s.cap_
    · rw [if_pos h]; exact hs
    · rw [if_neg h]
      simp only [thread_queue.queue_item, thread_queue.size] at *
      simp only [List.length_append, List.length_cons, List.length_nil]
      omega
  · simp only [QOp.apply, thread_queue.get]
    rcases hd : s.deque_item with _ | ⟨x, z⟩
    · exact hs
    · have := deque_item_que s x z hd
      simp only [thread_queue.size] at *
      rw [this.1, this.2]
      simp only [List.length_tail]
      omega
  · simp only [QOp.apply, thread_queue.try_get]
    by_cases h : s.que_.length = 0
    · rw [if_pos h]; exact hs
    · rw [if_neg h]
      rcases hd : s.deque_item with _ | ⟨x, z⟩
      · exact hs
      · have := deque_item_que s x z hd
        simp only [thread_queue.size] at *
        rw [this.1, this.2]
        simp only [List.length_tail]
        omega
  · simp only [QOp.apply, thread_queue.try_get_for]
    by_cases h : s.que_.length = 0
    · rw [if_pos h]; exact hs
    · rw [if_neg h]
      rcases hd : s.deque_item with _ | ⟨x, z⟩
      · exact hs
      · have := deque_item_que s x z hd
        simp only [thread_queue.size] at *
        rw [this.1, this.2]
        simp only [List.length_tail]
        omega
  · simp only [QOp.apply, thread_queue.try_get_until]
    by_cases h : s.que_.length = 0
    · rw [if_pos h]; exact hs
    · rw [if_neg h]
      rcases hd : s.deque_item with _ | ⟨x, z⟩
      · exact hs
      · have := deque_item_que s x z hd
        simp only [thread_queue.size] at *
        rw [this.1, this.2]
        simp only [List.length_tail]
        omega
  · simp only [QOp.apply, thread_queue.task_done]
    by_cases h : s.nTasks_ = 0
    · rw [if_pos h]; exact hs
    · rw [if_neg h]; exact hs
  · exact hs
  · simpa [QOp.apply, thread_queue.set_capacity, thread_queue.size] using hcap
  · exact hs

/-- Counterexample to claim C5 as stated: the claim quantifies over every
sequence of public operations including the `capacity(n)` setter, but the
setter can shrink the capacity below the current size (the source documents
this explicitly).  Starting from `task_queue(1)`, a successful `put`
followed by `capacity(0)` reaches a state with `size() = 1 > 0 = capacity()`. -/
theorem thread_queue_size_le_cap_cex :
    reach [QOp.put 0, QOp.set_capacity 0] (thread_queue.init Nat 1) =
        { cap_ := 0, nTasks_ := 1, que_ := [0] } ∧
      ¬ (reach [QOp.put 0, QOp.set_capacity 0] (thread_queue.init Nat 1)).size ≤
        (reach [QOp.put 0, QOp.set_capacity 0] (thread_queue.init Nat 1)).capacity := by
  decide

/-- Claim C5, amended: in every state reachable from a freshly constructed
queue (or any state satisfying `size ≤ cap`) by public operations in which the
`capacity(n)` setter is only ever called with `n` at least the current size,
the invariant `0 ≤ size() ≤ capacity()` holds.  The setter is the sole
operation able to break the invariant; all puts, gets, `task_done`, `wait` and
accessors preserve it (`0 ≤ size()` holds unconditionally for the unsigned
size). -/
theorem thread_queue_size_le_cap (α : Type) (ops : List (QOp α))
    (s : thread_queue α) (hs : s.size ≤ s.capacity) (hsafe : capSafe ops s) :
    0 ≤ (reach ops s).size ∧ (reach ops s).size ≤ (reach ops s).capacity := by
  refine ⟨Nat.zero_le _, ?_⟩
  induction ops generalizing s with
  | nil => exact hs
  | cons op ops ih =>
      rcases hsafe with ⟨hop, hsafe'⟩
      exact ih (op.apply s) (QOp.apply_size_le op s hs hop) hsafe'

/-- Witness for amended C5: from a fresh queue of capacity 2, pushing 1 and 2,
popping once and shrinking the capacity to 1 keeps `size ≤ capacity`. -/
theorem thread_queue_size_le_cap_witness :
    0 ≤ (reach [QOp.put 1, QOp.try_put 2, QOp.get, QOp.set_capacity 1]
          (thread_queue.init Nat 2)).size ∧
      (reach [QOp.put 1, QOp.try_put 2, QOp.get, QOp.set_capacity 1]
          (thread_queue.init Nat 2)).size ≤
        (reach [QOp.put 1, QOp.try_put 2, QOp.get, QOp.set_capacity 1]
          (thread_queue.init Nat 2)).capacity :=
  thread_queue_size_le_cap Nat [QOp.put 1, QOp.try_put 2, QOp.get, QOp.set_capacity 1]
    (thread_queue.init Nat 2) (by decide)
    (by simp [capSafe, QOp.apply, thread_queue.init, thread_queue.put,
          thread_queue.try_put, thread_queue.get, thread_queue.deque_item,
          thread_queue.queue_item, thread_queue.size, thread_queue.set_capacity])

/-- Outcome of invoking a submitted callable `f`: it either returns a value or
raises a failure (throws).  This is the input to the `std::packaged_task`
built by `work_thread::submit`. -/
inductive Res (ε ρ : Type) where
  | val (v : ρ)
  | exn (e : ε)
deriving DecidableEq, Repr

/-- What one invocation of a queued task produces: `stored` is the outcome
placed in the shared state read by the task's `std::future`, and `escaped` is
the failure (if any) that propagates out of the invocation itself into the
worker loop. -/
structure task_run (ε ρ : Type) where
  stored : Res ε ρ
  escaped : Option ε
deriving DecidableEq, Repr

/-- Invoking the `std::packaged_task` created by `work_thread::submit`
(work_thread.h, `submit`): running the task runs `f` and stores its outcome —
return value or raised failure — into the shared state of the future returned
to the submitter; the invocation itself lets no failure escape. -/
def packaged_task_invoke (f : Res ε ρ) : task_run ε ρ :=
  { stored := f, escaped := none }

/-- The `catch (...) {}` at the worker-loop boundary
(work_thread.cpp, `thread_func`): whatever escapes a task invocation is
caught and discarded. -/
def catch_all (_e : Option ε) : Option ε := none

/-- One iteration of `work_thread::thread_func` on a submitted task: invoke
the queued wrapper (which resolves the task's future) inside
`try { que_.get()(); } catch (...) {}`.  Returns the resolved future state and
what the loop re-raises (nothing, by `catch_all`). -/
def work_thread.run_task (f : Res ε ρ) : Res ε ρ × Option ε :=
  let t := packaged_task_invoke f
  (t.stored, catch_all t.escaped)

/-- `std::future::get()` : return the stored value, or re-raise the stored
failure on the calling thread. -/
def future_get : Res ε ρ → Except ε ρ
  | .val v => .ok v
  | .exn e => .error e

/-- `work_thread::submit(f)` as observed through the returned future once the
worker thread has run the task: the future resolves to the outcome the
packaged task stored. -/
def work_thread.submit (f : Res ε ρ) : Res ε ρ :=
  (work_thread.run_task f).1

/-- `work_thread::call(f)` = `submit(f).get()` : block until the worker has
run the task, then return `f`'s value or re-raise `f`'s failure. -/
def work_thread.call (f : Res ε ρ) : Except ε ρ :=
  future_get (work_thread.submit f)

/-- `work_thread::cast(f)` = `submit(f)` with the returned future discarded:
the caller gets nothing back. -/
def work_thread.cast (_f : Res ε ρ) : Unit := ()

/-- Claim C2: call and cast semantics.  `call f` returns `v` to the caller
when `f` returns `v`, and re-raises `f`'s failure to the caller when `f`
fails; for a task submitted via `cast`, a failure of `f` is captured into the
discarded result channel, anything escaping the invocation is swallowed by
the worker loop's catch-all, and the `cast` caller observes nothing. -/
theorem work_thread_call_cast_semantics (ε ρ : Type) :
    (∀ v : ρ, work_thread.call (ε := ε) (Res.val v) = Except.ok v) ∧
    (∀ e : ε, work_thread.call (ρ := ρ) (Res.exn e) = Except.error e) ∧
    (∀ f : Res ε ρ, (work_thread.run_task f).2 = none ∧ work_thread.cast f = ()) := by
  refine ⟨fun v => rfl, fun e => rfl, fun f => ⟨rfl, rfl⟩⟩

/-- Witness for C2 at concrete types and inputs: a task returning 7 yields
`ok 7`, a task failing with 3 re-raises 3, and nothing escapes a failing cast
task. -/
theorem work_thread_call_cast_semantics_witness :
    work_thread.call (ε := Nat) (Res.val 7) = Except.ok 7 ∧
      work_thread.call (ρ := Nat) (Res.exn 3) = Except.error 3 ∧
      (work_thread.run_task (Res.exn 3 : Res Nat Nat)).2 = none :=
  ⟨(work_thread_call_cast_semantics Nat Nat).1 7,
    (work_thread_call_cast_semantics Nat Nat).2.1 3,
    ((work_thread_call_cast_semantics Nat Nat).2.2 (Res.exn 3)).1⟩

/-- The worker loop of `work_thread::thread_func`
(`while (!(quit_ && que_.empty())) { try { que_.get()(); } catch (...) {} }`)
for a run during which no further producer acts: `quit_` has its given value
and stays there, and nothing else is enqueued.  `que` is the task queue
content, `done` the tasks already dequeued and invoked, in order.  `some d`
means the loop exited with `d` the complete execution history; `none` means
the loop never exits (with `quit_` unset it blocks in `get()` on the empty
queue, or keeps looping). -/
def work_thread.thread_func (quit_ : Bool) : List τ → List τ → Option (List τ)
  | [], done => if quit_ then some done else none
  | t :: ts, done => work_thread.thread_func quit_ ts (done ++ [t])

/-- `work_thread::quit()` : set the quit flag and `cast` a no-op task so a
worker blocked in `get()` wakes up.  Input: the queue content at that moment;
output: the flag value and the queue content after the call. -/
def work_thread.quit (que : List τ) (noop : τ) : Bool × List τ :=
  (true, que ++ [noop])

theorem thread_func_quit_drains (quit_ : Bool) (que done : List τ) :
    work_thread.thread_func quit_ que done =
      if quit_ then some (done ++ que) else none := by
  induction que generalizing done with
  | nil => simp [work_thread.thread_func]
  | cons t ts ih =>
      simp only [work_thread.thread_func, ih, List.append_assoc,
        List.singleton_append]

/-- Claim C3: shutdown drains the queue.  The worker loop terminates only when
the quit flag is set (with it unset the loop never exits: it blocks in `get()`
once the queue drains); when the flag is set it still dequeues and executes
every queued task, in order, before exiting; and the destructor's
`quit()`-then-join sequence therefore leaves no queued task unexecuted — the
tasks pending at the quit request, and the wake-up no-op, all run. -/
theorem work_thread_shutdown_drains (τ : Type) :
    (∀ que done : List τ, work_thread.thread_func false que done = none) ∧
    (∀ que done : List τ,
      work_thread.thread_func true que done = some (done ++ que)) ∧
    (∀ (que : List τ) (noop : τ),
      work_thread.thread_func (work_thread.quit que noop).1
          (work_thread.quit que noop).2 [] = some (que ++ [noop])) := by
  refine ⟨fun que done => ?_, fun que done => ?_, fun que noop => ?_⟩
  · rw [thread_func_quit_drains]; simp
  · rw [thread_func_quit_drains]; simp
  · simp only [work_thread.quit]
    rw [thread_func_quit_drains]
    simp

/-- `cooper::func_wrapper` (func_wrapper.h): a move-only type-erased wrapper.
`impl_` is the owning `std::unique_ptr<base>`; `some f` models a pointer to an
`impl_t` wrapping the callable `f`, `none` models the null pointer of a
default-constructed or moved-from wrapper. -/
structure func_wrapper (τ : Type) where
  impl_ : Option τ
deriving DecidableEq, Repr

/-- Default constructor `func_wrapper() = default` : `impl_` is the null
`unique_ptr`. -/
def func_wrapper.mk_default (τ : Type) : func_wrapper τ := { impl_ := none }

/-- Generic constructor `func_wrapper(F&& f)` : `impl_(new impl_t<F>(move(f)))`
— the wrapper owns the callable. -/
def func_wrapper.of_fn (f : τ) : func_wrapper τ := { impl_ := some f }

/-- Move construction / move assignment `impl_ = std::move(rhs.impl_)` : the
target takes ownership of the pointer and the moved-from `unique_ptr` becomes
null.  Returns (target after, source after). -/
def func_wrapper.move_from (src : func_wrapper τ) : func_wrapper τ × func_wrapper τ :=
  ({ impl_ := src.impl_ }, { impl_ := none })

/-- `operator()()` : `impl_->invoke()`, which runs the wrapped callable `f` as
`f()`.  The pointer is dereferenced with no null check; `run` gives the effect
of running a callable, and `none` models the null-pointer dereference
(undefined behavior) reached when the wrapper is empty. -/
def func_wrapper.invoke (run : τ → ρ) (w : func_wrapper τ) : Option ρ :=
  w.impl_.map run

/-- Claim C9: partiality of `func_wrapper::operator()`.  Invocation runs the
wrapped callable exactly when the wrapper currently owns one: a wrapper
constructed from a callable (or move-assigned from a non-empty wrapper) runs
it; a default-constructed or moved-from wrapper has a null `impl_` and its
unguarded dereference means invocation is defined only under the precondition
that the wrapper is non-empty. -/
theorem func_wrapper_invoke_partial (τ ρ : Type) (run : τ → ρ) (f : τ) :
    (func_wrapper.of_fn f).invoke run = some (run f) ∧
    (func_wrapper.mk_default τ).invoke run = none ∧
    (∀ w : func_wrapper τ,
      (w.move_from.1.invoke run = w.invoke run) ∧
      w.move_from.2.invoke run = none) ∧
    ((func_wrapper.of_fn f).move_from.1.invoke run = some (run f)) ∧
    (∀ w : func_wrapper τ, w.invoke run = none ↔ w.impl_ = none) := by
  refine ⟨rfl, rfl, fun w => ⟨rfl, rfl⟩, rfl, fun w => ?_⟩
  rcases w with ⟨_ | f'⟩ <;> simp [func_wrapper.invoke]

/-- The guard of the initial block of `timer::thread_func` (timer.cpp):
`if (initTime_.count() != 0 && initTime_.count() != interval_.count())`.
In a run with no `stop()` request the `wait_for` inside the block times out
with `quit_` still false, so the callback fires exactly when this guard holds.
Durations are nanosecond counts. -/
def timer.initial_fire (initTime interval : Nat) : Bool :=
  initTime != 0 && initTime != interval

/-- Number of callback invocations a one-shot run of `timer::thread_func`
performs before the thread exits, with no `stop()` request: when
`interval_.count() == 0` the function returns right after the initial block
(`if (interval_.count() == 0) return;`), so the only possible invocation is
the initial one. -/
def timer.fires_one_shot (initTime : Nat) : Nat :=
  if timer.initial_fire initTime 0 then 1 else 0

/-- `one_shot::start(d)` (timer.h): forwards to `timer::start(d, 0)`, i.e.
`initTime_ = d`, `interval_ = 0`. -/
def one_shot_start (d : Nat) : Nat × Nat := (d, 0)

/-- Claim C7 is false on the code: a one-shot timer (interval == 0) invokes
its callback exactly once when the initial delay is non-zero, but with
`initialDelay == 0` the initial block's guard `initTime_.count() != 0` fails,
the block is skipped, and `thread_func` returns at the
`if (interval_.count() == 0) return;` check having invoked the callback zero
times — not once, and not immediately as the claim states.  The `one_shot`
class's own description ("A one shot timer expires once") says the claim is
the intent. -/
theorem timer_one_shot_fires (d : Nat) (hd : d ≠ 0) :
    timer.fires_one_shot (one_shot_start d).1 = 1 ∧
    timer.fires_one_shot (one_shot_start 0).1 = 0 := by
  constructor
  · simp [timer.fires_one_shot, timer.initial_fire, one_shot_start, hd]
  · simp [timer.fires_one_shot, timer.initial_fire, one_shot_start]

/-- Witness for the C7 evaluation: a one-shot started with a 5 ns delay fires
once; started with a 0 ns delay it fires zero times. -/
theorem timer_one_shot_fires_witness :
    timer.fires_one_shot (one_shot_start 5).1 = 1 ∧
      timer.fires_one_shot (one_shot_start 0).1 = 0 :=
  timer_one_shot_fires 5 (by decide)

/-- Reschedule step of the periodic loop in `timer::thread_func` (timer.cpp):
after an invocation finishing at time `now`, the next absolute fire time is
`to = std::max(to + interval_, steady_clock::now())`.  Times are nanoseconds
on the steady clock. -/
def timer.next_to (tgt interval now : Nat) : Nat :=
  max (tgt + interval) now

/-- Counterexample to claim C8 as stated: with the previous fire target at
t = 10 and interval 10 (so the schedule grid is 10, 20, 30, …), an invocation
that overruns until now = 25 gets its next fire time pushed to 25 — the
current time, which is not on the 10 ns grid at all (25 % 10 ≠ 0), hence not
"the soonest future multiple of the schedule" (which would be 30). -/
theorem timer_next_to_cex :
    timer.next_to 10 10 25 = 25 ∧ timer.next_to 10 10 25 % 10 ≠ 0 ∧
      timer.next_to 10 10 25 ≠ 30 := by
  decide

/-- Claim C8, amended: after each invocation the next absolute fire time is
`max(previous_target + interval, now)`: it equals `previous_target + interval`
whenever that instant has not yet passed, and is never earlier than the
current time; when an invocation overruns past `previous_target + interval`,
the next fire time becomes the current time itself — a single skip-ahead that
re-anchors the schedule (one wait per fire, no burst of catch-up firings),
not necessarily a multiple of the original schedule. -/
theorem timer_next_to_schedule (tgt interval now : Nat) :
    timer.next_to tgt interval now = max (tgt + interval) now ∧
    now ≤ timer.next_to tgt interval now ∧
    tgt + interval ≤ timer.next_to tgt interval now ∧
    (now ≤ tgt + interval → timer.next_to tgt interval now = tgt + interval) ∧
    (tgt + interval < now → timer.next_to tgt interval now = now) := by
  refine ⟨rfl, Nat.le_max_right _ _, Nat.le_max_left _ _, fun h => ?_, fun h => ?_⟩
  · simp [timer.next_to, Nat.max_eq_left h]
  · simp [timer.next_to, Nat.max_eq_right (Nat.le_of_lt h)]

/-- Witness for amended C8: target 10, interval 10; an invocation ending at
time 5 (no overrun) keeps the next fire at 20; one ending at 25 (overrun)
moves it to 25. -/
theorem timer_next_to_schedule_witness :
    timer.next_to 10 10 5 = 10 + 10 ∧ timer.next_to 10 10 25 = 25 :=
  ⟨(timer_next_to_schedule 10 10 5).2.2.2.1 (by decide),
    (timer_next_to_schedule 10 10 25).2.2.2.2 (by decide)⟩

/-- Modulus of `std::size_t` / `std::atomic<size_t>` arithmetic: values wrap
mod `2 ^ 64`. -/
def SIZE_T_MOD : Nat := 2 ^ 64

/-- `cooper::work_threads` (work_thread.h): the collection of worker threads
`thrs_` and the wrapping `std::atomic<size_t>` counter `nextThr_` used to pick
the next thread.  The counter value is kept reduced mod `2 ^ 64`. -/
structure work_threads (T : Type) where
  thrs_ : List T
  nextThr_ : Nat
deriving DecidableEq, Repr

/-- `next_thread_idx()` : `return nextThr_++ % thrs_.size();` — the atomic
post-increment returns the old counter (wrapping the stored value at
`2 ^ 64`), and the index is the old counter mod the number of threads. -/
def work_threads.next_thread_idx (w : work_threads T) : Nat × work_threads T :=
  (w.nextThr_ % w.thrs_.length, { w with nextThr_ := (w.nextThr_ + 1) % SIZE_T_MOD })

/-- `next_thread()` : `return thrs_[next_thread_idx()];` — the element of
`thrs_` at the index `next_thread_idx` just returned (`operator[]` is
unchecked; `none` models an out-of-bounds access, unreachable while the
collection is non-empty). -/
def work_threads.next_thread (w : work_threads T) : Option T × work_threads T :=
  (w.thrs_.get? w.next_thread_idx.1, w.next_thread_idx.2)

/-- Counterexample to claim C10 as stated: `nextThr_` is a `size_t` and the
post-increment wraps at `2 ^ 64`.  With 3 threads and the counter at
`2 ^ 64 - 1`, the call returns index `(2 ^ 64 - 1) % 3 = 0` and wraps the
counter to 0, so the next call also returns 0 — the indices of two
consecutive calls do not advance by 1 mod 3. -/
theorem work_threads_round_robin_cex :
    (({ thrs_ := [10, 20, 30], nextThr_ := 2 ^ 64 - 1 } :
        work_threads Nat).next_thread_idx).1 = 0 ∧
    ((({ thrs_ := [10, 20, 30], nextThr_ := 2 ^ 64 - 1 } :
        work_threads Nat).next_thread_idx).2.next_thread_idx).1 = 0 ∧
    (0 : Nat) ≠ (0 + 1) % 3 := by
  refine ⟨?_, ?_, by decide⟩
  · show (2 ^ 64 - 1) % 3 = 0
    norm_num
  · show (2 ^ 64 - 1 + 1) % 2 ^ 64 % 3 = 0
    norm_num

/-- Claim C10, amended: each `next_thread_idx` call on a collection of
`n > 0` threads returns the previous counter value modulo `n` and stores the
counter incremented by one (wrapping at `2 ^ 64`, the width of `size_t`);
whenever the increment does not wrap, the next call's index advances
cyclically by exactly 1 mod `n`, the returned index is in range, and
`next_thread` returns the thread at exactly that index — round-robin
distribution, broken only across the `2 ^ 64` counter wrap. -/
theorem work_threads_round_robin (T : Type) (w : work_threads T)
    (hn : 0 < w.thrs_.length) (hwrap : w.nextThr_ + 1 < SIZE_T_MOD) :
    w.next_thread_idx.1 = w.nextThr_ % w.thrs_.length ∧
    w.next_thread_idx.2.nextThr_ = w.nextThr_ + 1 ∧
    w.next_thread_idx.2.thrs_ = w.thrs_ ∧
    w.next_thread_idx.2.next_thread_idx.1 =
      (w.next_thread_idx.1 + 1) % w.thrs_.length ∧
    w.next_thread_idx.1 < w.thrs_.length ∧
    w.next_thread.1 = w.thrs_.get? w.next_thread_idx.1 ∧
    w.next_thread.2 = w.next_thread_idx.2 := by
  have hinc : (w.nextThr_ + 1) % SIZE_T_MOD = w.nextThr_ + 1 :=
    Nat.mod_eq_of_lt hwrap
  refine ⟨rfl, hinc, rfl, ?_, Nat.mod_lt _ hn, rfl, rfl⟩
  show (w.nextThr_ + 1) % SIZE_T_MOD % w.thrs_.length
      = (w.nextThr_ % w.thrs_.length + 1) % w.thrs_.length
  rw [hinc, Nat.mod_add_mod]

/-- Witness for amended C10: three threads, counter at 4: the call returns
index 1 and the following call returns 2 = (1 + 1) mod 3; `next_thread`
returns the element at index 1 (the value 20). -/
theorem work_threads_round_robin_witness :
    (({ thrs_ := [10, 20, 30], nextThr_ := 4 } : work_threads Nat).next_thread_idx).1 = 1 ∧
      (({ thrs_ := [10, 20, 30], nextThr_ := 4 } :
          work_threads Nat).next_thread_idx).2.next_thread_idx.1 = (1 + 1) % 3 ∧
      (({ thrs_ := [10, 20, 30], nextThr_ := 4 } : work_threads Nat).next_thread).1 =
        some 20 := by
  have h := work_threads_round_robin Nat { thrs_ := [10, 20, 30], nextThr_ := 4 }
    (by decide) (by norm_num [SIZE_T_MOD])
  refine ⟨h.1, ?_, ?_⟩
  · rw [h.2.2.2.1, h.1]; decide
  · rw [h.2.2.2.2.2.1, h.1]; decide
